import Mathlib

set_option autoImplicit false
set_option maxRecDepth 4000

/- The kernel is free to unfold the arithmetic of `ℚ`; making the core
rational operations semireducible lets the elaborator evaluate the
(computable) float-renderer model on concrete inputs by `decide`. -/
set_option allowUnsafeReducibility true in
attribute [semireducible] Rat.mul Rat.add Rat.sub Rat.inv

/-
Verification of the zpr string-formatting engine of the ztl repository.

The repository contains two generations of the formatter:
 - `src/zpr.h` (version 1.4.0), embedded below in namespace `Zpr.V1`;
 - `src/unnamed/part_001` (a newer rewrite of zpr.h), embedded in
   namespace `Zpr.V2`.
Definitions are translated from the C++ sources; machine integers are
modelled as `Int`/`Nat` with explicit `% 2^w` where the code casts,
doubles in the float renderer are modelled as exact rationals `ℚ`,
and the C++ loops that scan strings or emit digits are written as
fuel-indexed structural recursions whose fuel strictly exceeds the
loop bounds of the source (the 128-byte buffer, the 64-bit digit
count, the format-string length), so the fuel never runs out on the
modelled domain and the definitions compute by `decide`/`rfl`.
-/

namespace Zpr

/-- Character code of `c` as the C++ `char` value promoted to `int`. -/
def code (c : Char) : Int := Int.ofNat c.toNat

/-- The character `'0' + n` for a digit value `n < 10`. -/
def digit_char (n : Nat) : Char := Char.ofNat ('0'.toNat + n)

/-- C `isupper` applied to the stored specifier (an `int` holding a `char`,
with `-1` for "unset"). -/
def isupper_spec (s : Int) : Bool := code 'A' ≤ s ∧ s ≤ code 'Z'

/-- C `toupper` on ASCII. -/
def toupper (c : Char) : Char :=
  if 'a' ≤ c ∧ c ≤ 'z' then Char.ofNat (c.toNat - 32) else c

/--
Embeds `zpr::format_args` (src/zpr.h lines 569-587, identically in
src/unnamed/part_001).  The C++ stores the flags in a `uint8_t` bitmask
that is mutated only by or-ing in the `FMT_FLAG_*` constants and read
back only through the accessor methods; we embed the bitmask as one
`Bool` field per flag bit.  `specifier` is the C++ `char` member (with
the sentinel `-1` for "unset") promoted to `Int`.
-/
structure format_args where
  specifier : Int := -1
  flag_zero_pad : Bool := false
  flag_alternate : Bool := false
  flag_prepend_plus : Bool := false
  flag_prepend_space : Bool := false
  flag_have_width : Bool := false
  flag_have_precision : Bool := false
  flag_width_negative : Bool := false
  width : Int := -1
  length : Int := -1
  precision : Int := -1
  deriving DecidableEq, Repr

/-- Accessor `format_args::zero_pad`. -/
def format_args.zero_pad (a : format_args) : Bool := a.flag_zero_pad

/-- Accessor `format_args::alternate`. -/
def format_args.alternate (a : format_args) : Bool := a.flag_alternate

/-- Accessor `format_args::have_width`. -/
def format_args.have_width (a : format_args) : Bool := a.flag_have_width

/-- Accessor `format_args::have_precision`. -/
def format_args.have_precision (a : format_args) : Bool := a.flag_have_precision

/-- Accessor `format_args::prepend_plus`. -/
def format_args.prepend_plus (a : format_args) : Bool := a.flag_prepend_plus

/-- Accessor `format_args::prepend_space`. -/
def format_args.prepend_space (a : format_args) : Bool := a.flag_prepend_space

/-- Accessor `format_args::negative_width`. -/
def format_args.negative_width (a : format_args) : Bool :=
  a.have_width && a.flag_width_negative

/-- Accessor `format_args::positive_width`. -/
def format_args.positive_width (a : format_args) : Bool :=
  a.have_width && !a.negative_width

/--
One invocation of the sink callback `cb`: the three shapes of write the
sinks accept (a byte range, one character, one character repeated).
Every printer below returns the exact sequence of `cb` calls it makes.
-/
inductive Chunk where
  | str : List Char → Chunk
  | chr : Char → Chunk
  | rep : Char → Nat → Chunk
  deriving DecidableEq, Repr

/-- The characters a chunk writes. -/
def Chunk.chars : Chunk → List Char
  | .str s => s
  | .chr c => [c]
  | .rep c n => List.replicate n c

/-- The full character stream of a chunk sequence (what the growable
string sink `string_appender` accumulates). -/
def chunksChars (cks : List Chunk) : List Char := (cks.map Chunk.chars).flatten

/-- The two characters the decimal `lookup_table` holds at index `v * 2`,
for `v < 100` (src/zpr.h lines 1149-1153, identically
src/unnamed/part_001 lines 1297-1301): the zero-padded decimal pair. -/
def dec_pair (v : Nat) : List Char := [digit_char (v / 10), digit_char (v % 10)]

/-- The two characters the hexadecimal `lookup_table` holds at index
`v * 2`, for `v < 256` (src/zpr.h lines 1212-1220, identically
src/unnamed/part_001 lines 1222-1230): the zero-padded lowercase hex
pair. -/
def hex_pair (v : Nat) : List Char :=
  [if v / 16 ≤ 9 then digit_char (v / 16) else Char.ofNat ('a'.toNat + (v / 16 - 10)),
   if v % 16 ≤ 9 then digit_char (v % 16) else Char.ofNat ('a'.toNat + (v % 16 - 10))]

namespace V1

/-! ### Format-spec parser, src/zpr.h lines 617-705 -/

/-- The leading flag-consuming loop of `parse_fmt_spec`
(src/zpr.h lines 626-639). -/
def parse_flags : format_args → List Char → format_args × List Char
  | fa, [] => (fa, [])
  | fa, c :: sv =>
      if c = '0' then parse_flags {fa with flag_zero_pad := true} sv
      else if c = '#' then parse_flags {fa with flag_alternate := true} sv
      else if c = '-' then parse_flags {fa with flag_width_negative := true} sv
      else if c = '+' then parse_flags {fa with flag_prepend_plus := true} sv
      else if c = ' ' then parse_flags {fa with flag_prepend_space := true} sv
      else (fa, c :: sv)

/-- A maximal run of decimal digits folded into a value, as the width and
precision loops of `parse_fmt_spec` do (src/zpr.h lines 658-659, 692-693). -/
def parse_digits (acc : Int) : List Char → Int × List Char
  | c :: sv =>
      if '0' ≤ c ∧ c ≤ '9' then
        parse_digits (10 * acc + (Int.ofNat c.toNat - Int.ofNat '0'.toNat)) sv
      else (acc, c :: sv)
  | [] => (acc, [])

/-- Skipping a maximal run of decimal digits, as the negative-precision
branch does (src/zpr.h lines 680-684). -/
def skip_digits : List Char → List Char
  | c :: sv => if '0' ≤ c ∧ c ≤ '9' then skip_digits sv else c :: sv
  | [] => []

/-- The width section of `parse_fmt_spec` (src/zpr.h lines 644-662).
Returns the updated spec, the `need_width` flag (a `*` width) and the
remaining input. -/
def parse_width (fa : format_args) (sv : List Char) :
    format_args × Bool × List Char :=
  match sv with
  | [] => (fa, false, [])
  | c :: rest =>
      if c = '*' then ({fa with flag_have_width := true}, true, rest)
      else if '0' ≤ c ∧ c ≤ '9' then
        let p := parse_digits 0 (c :: rest)
        ({fa with flag_have_width := true, width := p.1}, false, p.2)
      else (fa, false, c :: rest)

/-- The precision section of `parse_fmt_spec` (src/zpr.h lines 667-697).
Returns the updated spec, the `need_prec` flag (a `.*` precision) and the
remaining input.  A `.-digits` run is consumed without setting the
precision. -/
def parse_precision (fa : format_args) (sv : List Char) :
    format_args × Bool × List Char :=
  match sv with
  | [] => (fa, false, [])
  | c :: rest =>
      if c = '.' then
        match rest with
        | [] => (fa, false, [])
        | c2 :: rest2 =>
            if c2 = '*' then ({fa with flag_have_precision := true}, true, rest2)
            else if c2 = '-' then (fa, false, skip_digits rest2)
            else if '0' ≤ c2 ∧ c2 ≤ '9' then
              let p := parse_digits 0 (c2 :: rest2)
              ({fa with flag_have_precision := true, precision := p.1}, false, p.2)
            else (fa, false, c2 :: rest2)
      else (fa, false, c :: rest)

/-- The trailing type character (src/zpr.h lines 699-700). -/
def parse_type_char (fa : format_args) (sv : List Char) : format_args :=
  match sv with
  | c :: _ => {fa with specifier := code c}
  | [] => fa

/--
`zpr::detail::parse_fmt_spec` (src/zpr.h lines 617-705).  The input is the
whole `{...}` token including both braces; the first and last characters
are dropped, then flags, width, precision and the type character are
consumed in order.  The C++ `goto done` exits early on empty input; the
remaining sections are identities on `[]`, so sequential composition is
the same function.  Returns `(fmt_args, need_width, need_prec)`.
-/
def parse_fmt_spec (sv0 : List Char) : format_args × Bool × Bool :=
  let sv := (sv0.drop 1).dropLast
  let r1 := parse_flags {} sv
  let r2 := parse_width r1.1 r1.2
  let r3 := parse_precision r2.1 r2.2.2
  (parse_type_char r3.1 r3.2.2, r2.2.1, r3.2.1)

/-! ### Integer digit printers, src/zpr.h lines 1146-1293

The C++ functions write most-significant-last into the tail of an
80-byte buffer and return the filled suffix; we build the same final
digit list directly.  The `/100`-per-step loops are fuel-indexed; a
64-bit value needs at most 10 steps, and every caller passes fuel 70.
-/

/-- The `hex_digit` lambda inside `print_hex_integer` (src/zpr.h lines
1228-1233).  Note that the non-digit branch returns `'a' + x`, not
`'a' + (x - 10)`. -/
def hex_digit (x : Nat) : Char :=
  if x ≤ 9 then Char.ofNat ('0'.toNat + x) else Char.ofNat ('a'.toNat + x)

/-- Digit loop of `zpr::detail::print_decimal_integer` on the magnitude
(src/zpr.h lines 1170-1183, the `ZPR_DECIMAL_LOOKUP_TABLE` build, which
is the default): two digits per step while `value >= 10`, then one
leading digit if a nonzero value remains.  A zero value produces no
output. -/
def print_decimal_integer_nat : Nat → Nat → List Char
  | 0, _ => []
  | fuel + 1, value =>
      if value ≥ 10 then
        print_decimal_integer_nat fuel (value / 100) ++ dec_pair (value % 100)
      else if value > 0 then [digit_char (value % 10)]
      else []

/-- `zpr::detail::print_decimal_integer` (src/zpr.h lines 1146-1204):
for a signed type the sign is stripped first and `'-'` is prepended to
the digits. -/
def print_decimal_integer (value : Int) : List Char :=
  if value < 0 then '-' :: print_decimal_integer_nat 70 (-value).toNat
  else print_decimal_integer_nat 70 value.toNat

/-- Digit loop of `zpr::detail::print_hex_integer` (src/zpr.h lines
1237-1250, the `ZPR_HEXADECIMAL_LOOKUP_TABLE` build, which is the
default): a lookup pair per step while `value >= 0x10` (dividing by
`0x100`), then one leading digit through `hex_digit` if a nonzero value
remains. -/
def print_hex_integer_nat : Nat → Nat → List Char
  | 0, _ => []
  | fuel + 1, value =>
      if value ≥ 0x10 then
        print_hex_integer_nat fuel (value / 0x100) ++ hex_pair (value % 0x100)
      else if value > 0 then [hex_digit (value % 0x10)]
      else []

/-- `zpr::detail::print_hex_integer` (src/zpr.h lines 1209-1265); callers
always pass a non-negative value (unsigned types, or the two's-complement
cast of a signed one). -/
def print_hex_integer (value : Nat) : List Char := print_hex_integer_nat 70 value

/-- `zpr::detail::print_binary_integer` (src/zpr.h lines 1267-1285):
one bit per step while `value > 0`; zero produces no output. -/
def print_binary_integer_nat : Nat → Nat → List Char
  | 0, _ => []
  | fuel + 1, value =>
      if value > 0 then
        print_binary_integer_nat fuel (value / 2) ++ [digit_char (value % 2)]
      else []

/-- `zpr::detail::print_binary_integer` with fuel covering 64 bits. -/
def print_binary_integer (value : Nat) : List Char := print_binary_integer_nat 70 value

/-- `zpr::detail::print_integer` (src/zpr.h lines 1287-1293).  The hex
and binary printers receive non-negative values from their callers. -/
def print_integer (value : Int) (base : Nat) : List Char :=
  if base = 2 then print_binary_integer value.toNat
  else if base = 16 then print_hex_integer value.toNat
  else print_decimal_integer value

/-! ### The integral formatter, src/zpr.h lines 1733-1853 -/

/-- The sign-character block of the integral formatter's prefix
(src/zpr.h lines 1796-1803): `+` if requested, else a space if
requested, else `-` for a negative decimal value. -/
def sign_pfx (x : Int) (base : Nat) (args : format_args) : List Char :=
  if args.prepend_plus then ['+']
  else if args.prepend_space then [' ']
  else if x < 0 ∧ base = 10 then ['-']
  else []

/-- The radix part of the prefix (src/zpr.h lines 1805-1812), with the
default configuration `ZPR_HEX_0X_RESPECTS_UPPERCASE = 0`, i.e. the
letter is always lowercased. -/
def radix_pfx (base : Nat) (args : format_args) : List Char :=
  if base ≠ 10 ∧ args.alternate then
    ['0', Char.ofNat (Int.lor args.specifier 0x20).toNat]
  else []

/--
`zpr::print_formatter<T>::print` for the integral types
(src/zpr.h lines 1733-1853).  `signed` and `bits` describe the C++ type
`T`; a signed value printed in base 16 goes through the
`make_unsigned_t<T>` cast, i.e. `x % 2^bits`, and otherwise through
`util::abs`.  Emits the same sequence of `cb` calls as the source:
left padding, prefix, zero padding, precision padding, digits, right
padding.
-/
def int_formatter_print (signed : Bool) (bits : Nat) (x : Int)
    (args0 : format_args) : List Chunk :=
  let bargs : Nat × format_args :=
    if Int.lor args0.specifier 0x20 = code 'x' then (16, args0)
    else if args0.specifier = code 'b' then (2, args0)
    else if args0.specifier = code 'p' then
      (16, {args0 with specifier := code 'x', flag_alternate := true})
    else (10, args0)
  let base := bargs.1
  let args := bargs.2
  let digits0 : List Char :=
    if !signed then print_integer x base
    else if base = 16 then print_integer (x % (2 ^ bits : Int)) base
    else print_integer (Int.ofNat x.natAbs) base
  let digits : List Char :=
    if isupper_spec args.specifier then digits0.map toupper else digits0
  let pfx : List Char := sign_pfx x base args ++ radix_pfx base args
  let pfx_len : Int := pfx.length
  let pfx_digits_length : Int := (radix_pfx base args).length
  let digits_len : Int := digits.length
  let output_length_with_precision : Int :=
    if args.have_precision then max args.precision digits_len else digits_len
  let total_digits_length := pfx_digits_length + digits_len
  let normal_length := pfx_len + digits_len
  let length_with_precision := pfx_len + output_length_with_precision
  let padding_width := args.width - length_with_precision
  let zeropad_width := args.width - normal_length
  let precpad_width := args.precision - total_digits_length
  let use_precision := args.have_precision && decide (precpad_width > 0)
  let use_zero_pad := args.zero_pad && args.positive_width && !args.have_precision
    && decide (zeropad_width > 0)
  let use_left_pad := (!(args.zero_pad && args.positive_width && !args.have_precision))
    && args.positive_width && decide (padding_width > 0)
  let use_right_pad := (!(args.zero_pad && args.positive_width && !args.have_precision))
    && args.negative_width && decide (padding_width > 0)
  (if use_left_pad then [Chunk.rep ' ' padding_width.toNat] else []) ++
  [Chunk.str pfx] ++
  (if use_zero_pad then [Chunk.rep '0' zeropad_width.toNat] else []) ++
  (if use_precision then [Chunk.rep '0' precpad_width.toNat] else []) ++
  [Chunk.str digits] ++
  (if use_right_pad then [Chunk.rep ' ' padding_width.toNat] else [])

/-! ### The template driver, src/zpr.h lines 1305-1456

`zpr::detail::print` walks the format string with a `beg`/`end` pointer
pair, flushing the pending plain-text run through `cb(beg, end)` when a
brace is met.  We carry the pending run explicitly and emit it as one
`Chunk.str` at each flush point, exactly where the source flushes.
The heterogeneous argument tuple is modelled as a `List Int` of C++
`int` arguments (every element rendered through the integral formatter,
and satisfying the driver's `is_integral` test for dynamic width and
precision).  `visit_one`/`visit_two`/`visit_three` (lines 707-754)
invoke the formatter exactly when `idx + k ≤ args.length` where `k` is
the number of tuple slots consumed, and otherwise fall off the end of
their `if constexpr` recursion doing nothing; this is the
`List.get?`-is-`some` condition below.  The loop runs once per
character, so fuel `fmt.length` suffices from the entry point.
-/

/-- The scan for the closing `}` of a specifier (src/zpr.h lines
1329-1336): splits the input at the first `'}'`, returning the text
before it and the rest after it, or `none` when the string ends first
(the `if(!end[0]) return` case). -/
def splitRB : List Char → Option (List Char × List Char)
  | [] => none
  | c :: cs =>
      if c = '}' then some ([], cs)
      else (splitRB cs).map fun p => (c :: p.1, p.2)

/-- How the driver renders one value argument:
`print_formatter<decay_t<decltype(x)>>().print(x, cb, fmt_args)`
with our arguments of C++ type `int`. -/
def render_int (x : Int) (fa : format_args) : List Chunk :=
  int_formatter_print true 32 x fa

/-- Sentinel emitted at src/zpr.h line 1365. -/
def missing_width_and_prec : List Char := "<missing width and prec>".data

/-- Sentinel emitted at src/zpr.h line 1388. -/
def missing_width : List Char := "<missing width>".data

/-- Sentinel emitted at src/zpr.h line 1411. -/
def missing_prec : List Char := "<missing prec>".data

/-- Sentinel emitted at src/zpr.h line 1428. -/
def missing_value : List Char := "<missing value>".data

/-- The body run for one parsed specifier (src/zpr.h lines 1338-1432):
chooses among the four `width`/`prec` branches, emits either the
rendered value (when the visit functions reach index `idx`) or the
sentinel (when the whole tuple is statically too small), and reports
the number of tuple slots consumed. -/
def render_spec (args : List Int) (idx : Nat) (tok : List Char) :
    List Chunk × Nat :=
  let parsed := parse_fmt_spec tok
  let fa := parsed.1
  let needw := parsed.2.1
  let needp := parsed.2.2
  if needw ∧ needp then
    (if args.length ≥ 3 then
      match args[idx]?, args[idx + 1]?, args[idx + 2]? with
      | some w, some p, some x =>
          render_int x
            {fa with width := w, precision := p, flag_have_width := true, flag_have_precision := true}
      | _, _, _ => []
    else [Chunk.str missing_width_and_prec], 3)
  else if needw then
    (if args.length ≥ 2 then
      match args[idx]?, args[idx + 1]? with
      | some w, some x =>
          render_int x {fa with width := w, flag_have_width := true}
      | _, _ => []
    else [Chunk.str missing_width], 2)
  else if needp then
    (if args.length ≥ 2 then
      match args[idx]?, args[idx + 1]? with
      | some p, some x =>
          render_int x {fa with precision := p, flag_have_precision := true}
      | _, _ => []
    else [Chunk.str missing_prec], 2)
  else
    (if args.length ≥ 1 then
      match args[idx]? with
      | some x => render_int x fa
      | none => []
    else [Chunk.str missing_value], 1)

/--
The scanning loop of `zpr::detail::print` (src/zpr.h lines 1313-1456).
`pending` is the `beg..end` plain-text run not yet flushed; `idx` is
`tup_idx`.  Returns the chunk stream and the final `tup_idx`.
-/
def print_loop (args : List Int) :
    Nat → List Char → List Char → Nat → List Chunk × Nat
  | _, pending, [], idx => ([Chunk.str pending], idx)
  | 0, pending, _ :: _, idx => ([Chunk.str pending], idx)
  | fuel + 1, pending, c :: rest, idx =>
      if c = '{' then
        if rest.head? = some '{' then
          let r := print_loop args fuel [] rest.tail idx
          (Chunk.str pending :: Chunk.chr '{' :: r.1, r.2)
        else
          match splitRB rest with
          | none => ([Chunk.str pending], idx)
          | some (spec, rest') =>
              let out := render_spec args idx ('{' :: spec ++ ['}'])
              let r := print_loop args fuel [] rest' (idx + out.2)
              (Chunk.str pending :: out.1 ++ r.1, r.2)
      else if c = '}' then
        if rest.head? = some '}' then
          let r := print_loop args fuel [] rest.tail idx
          (Chunk.str pending :: Chunk.chr '}' :: r.1, r.2)
        else
          let r := print_loop args fuel [] rest idx
          (Chunk.str pending :: Chunk.chr '}' :: r.1, r.2)
      else print_loop args fuel (pending ++ [c]) rest idx

/-- One full `zpr::detail::print` call on a format string and an
argument tuple. -/
def print_run (fmt : List Char) (args : List Int) : List Chunk × Nat :=
  print_loop args fmt.length [] fmt 0

/-- The character stream of a full call: what `zpr::sprint`
(the `std::string` overload, src/zpr.h lines 1986-1994) returns. -/
def sprint (fmt : List Char) (args : List Int) : List Char :=
  chunksChars (print_run fmt args).1

/-! ### The fixed-capacity sink, src/zpr.h lines 1533-1579 -/

/-- `zpr::detail::buffer_appender`: caller-supplied memory of capacity
`cap`, with `data` the bytes accepted so far (`len` is
`data.length`). -/
structure buffer_appender where
  cap : Nat
  data : List Char
  deriving DecidableEq, Repr

/-- `operator() (char c)` (src/zpr.h lines 1537-1541). -/
def buffer_appender.put_char (b : buffer_appender) (c : Char) : buffer_appender :=
  if b.data.length < b.cap then {b with data := b.data ++ [c]} else b

/-- `operator() (const str_view& sv)` (src/zpr.h lines 1543-1548):
copies `min(cap - len, sv.size())` bytes. -/
def buffer_appender.put_str (b : buffer_appender) (s : List Char) : buffer_appender :=
  {b with data := b.data ++ s.take (min (b.cap - b.data.length) s.length)}

/-- The loop of `operator() (char c, size_t n)` (src/zpr.h lines
1550-1554): `for(i = 0; i < remaining(n); i++) buf[len++] = c;` with
`remaining(n) = min(cap - len, n)` re-evaluated each iteration.  Each
iteration appends one byte, so fuel `cap + 1` never runs out. -/
def buffer_appender.put_rep_go :
    Nat → buffer_appender → Char → Nat → Nat → buffer_appender
  | 0, b, _, _, _ => b
  | fuel + 1, b, c, n, i =>
      if i < min (b.cap - b.data.length) n then
        buffer_appender.put_rep_go fuel {b with data := b.data ++ [c]} c n (i + 1)
      else b

/-- `operator() (char c, size_t n)`. -/
def buffer_appender.put_rep (b : buffer_appender) (c : Char) (n : Nat) :
    buffer_appender :=
  buffer_appender.put_rep_go (b.cap + 1) b c n 0

/-- Dispatch of one sink write to the matching `operator()` overload. -/
def buffer_appender.append_chunk (b : buffer_appender) : Chunk → buffer_appender
  | .str s => b.put_str s
  | .chr c => b.put_char c
  | .rep c n => b.put_rep c n

/-- `zpr::sprint(char* buf, size_t len, fmt, args...)` (src/zpr.h lines
1698-1713): builds a `buffer_appender` over the caller's buffer, runs
the driver through it and returns `appender.size()`. -/
def sprint_into (buf_cap : Nat) (fmt : List Char) (args : List Int) : Nat :=
  (List.foldl buffer_appender.append_chunk ⟨buf_cap, []⟩ (print_run fmt args).1).data.length

/-! ### The fixed-point float renderer, src/zpr.h lines 966-1142

`zpr::detail::print_floating` is byte-identical in the two generations
(src/unnamed/part_001 lines 1037-1213).  The C++ `double` values are
modelled as exact rationals: every concrete input below
(2.5, 3.5, 1/4, ...) is a dyadic rational on which the source's double
arithmetic is exact.  The `pow10` array entries are the exact doubles
`10^k` for `k ≤ 16`.  The digit-emitting loops write into a 128-byte
buffer most-significant-last which is reversed at the end; `buf` below
is that buffer, and each loop keeps the source's `len < MAX_BUFFER_LEN`
guard.  Fuel 256 strictly exceeds every loop's iteration count (each
iteration either appends to the 128-capped buffer or divides a 64-bit
quantity by 10).
-/

/-- The entry `pow10[p]` (src/zpr.h lines 985-1003). -/
def pow10 (p : Nat) : ℚ := 10 ^ p

/--
The rounding kernel of `print_floating` (src/zpr.h lines 1029-1065):
splits the non-negative `value` into integer and fractional parts,
scales the fraction by `pow10 prec`, rounds with the three-way
`diff` comparison (ties increment `frac` when it is zero or odd), and
for `prec == 0` applies the separate round-half-to-even adjustment to
the integer part.  Returns the rounded `(frac, whole)` pair.
-/
def round_floating (value : ℚ) (prec : Nat) : Nat × Int :=
  let whole : Int := Rat.floor value
  let tmp : ℚ := (value - whole) * pow10 prec
  let frac : Nat := (Rat.floor tmp).toNat
  let diff : ℚ := tmp - frac
  let fw : Nat × Int :=
    if diff > 1/2 then
      if ((frac + 1 : Nat) : ℚ) ≥ pow10 prec then (0, whole + 1)
      else (frac + 1, whole)
    else if diff < 1/2 then (frac, whole)
    else if frac = 0 ∨ frac % 2 = 1 then (frac + 1, whole)
    else (frac, whole)
  if prec = 0 then
    let diff2 : ℚ := value - (fw.2 : ℚ)
    if (¬(diff2 < 1/2) ∨ diff2 > 1/2) ∧ fw.2 % 2 = 1 then (fw.1, fw.2 + 1)
    else fw
  else fw

/-- The `prec > 16` clamping loop (src/zpr.h lines 1023-1027): pads the
(reversed) buffer with `'0'` while the precision exceeds 16. -/
def clamp_prec_loop : Nat → List Char → Int → List Char × Int
  | 0, buf, prec => (buf, prec)
  | fuel + 1, buf, prec =>
      if buf.length < 128 ∧ prec > 16 then clamp_prec_loop fuel (buf ++ ['0']) (prec - 1)
      else (buf, prec)

/-- The fractional-digit loop (src/zpr.h lines 1070-1084): emits the
digits of `frac` least-significant-first, skipping trailing zeros while
`flag` (the `%g`-mode trim) holds, decrementing `count` each iteration,
and stopping once `frac / 10` reaches zero. -/
def frac_loop : Nat → List Char → Bool → Nat → Int → List Char × Int
  | 0, buf, _, _, count => (buf, count)
  | fuel + 1, buf, flag, frac, count =>
      if buf.length < 128 then
        let skip := flag ∧ frac % 10 = 0
        let buf' := if skip then buf else buf ++ [digit_char (frac % 10)]
        let flag' := if skip then flag else false
        if frac / 10 = 0 then (buf', count - 1)
        else frac_loop fuel buf' flag' (frac / 10) (count - 1)
      else (buf, count)

/-- The trailing-zero filler after the fractional digits
(src/zpr.h lines 1086-1088). -/
def extra_zero_loop : Nat → List Char → Int → List Char
  | 0, buf, _ => buf
  | fuel + 1, buf, count =>
      if buf.length < 128 ∧ count > 0 then extra_zero_loop fuel (buf ++ ['0']) (count - 1)
      else buf

/-- The integer-part digit loop (src/zpr.h lines 1095-1101): emits at
least one digit (so `0` prints `'0'`). -/
def whole_loop : Nat → List Char → Int → List Char
  | 0, buf, _ => buf
  | fuel + 1, buf, whole =>
      if buf.length < 128 then
        let buf' := buf ++ [digit_char (whole % 10).toNat]
        if whole / 10 = 0 then buf' else whole_loop fuel buf' (whole / 10)
      else buf

/-- The zero-padding loop (src/zpr.h lines 1103-1113). -/
def zero_pad_loop : Nat → List Char → Int → List Char
  | 0, buf, _ => buf
  | fuel + 1, buf, width =>
      if (buf.length : Int) < width ∧ buf.length < 128 then
        zero_pad_loop fuel (buf ++ ['0']) width
      else buf

/--
`zpr::detail::print_floating` (src/zpr.h lines 966-1142) on its
fixed-point path.  NaN and the infinities do not exist in `ℚ`, so the
`print_special_floating` branch is unreachable in this embedding; the
`|value| > 1e15` branch delegates to `print_exponent`, which is outside
the fixed-point renderer, and is returned as `none`.
-/
def print_floating (value : ℚ) (args0 : format_args) : Option (List Chunk) :=
  if value > 10 ^ 15 ∨ value < -(10 ^ 15 : ℚ) then none
  else
    let prec0 : Int := if args0.have_precision then args0.precision else 6
    let use_zero_pad := args0.zero_pad && args0.positive_width && !args0.have_precision
    let use_left_pad := !use_zero_pad && args0.positive_width
    let use_right_pad := !use_zero_pad && args0.negative_width
    let args := if args0.specifier = -1 then {args0 with specifier := code 'g'} else args0
    let negative := value < 0
    let v := if value < 0 then -value else value
    let cp := clamp_prec_loop 256 [] prec0
    let buf0 := cp.1
    let prec := cp.2.toNat
    let fw := round_floating v prec
    let frac := fw.1
    let whole := fw.2
    let buf1 : List Char :=
      if cp.2 = 0 then buf0
      else
        let gflag := args.specifier = code 'g' ∨ args.specifier = code 'G'
        let fl := frac_loop 256 buf0 gflag frac cp.2
        let bufB := extra_zero_loop 256 fl.1 fl.2
        if bufB.length < 128 then bufB ++ ['.'] else bufB
    let buf2 := whole_loop 256 buf1 whole
    let buf3 :=
      if use_zero_pad then
        let width := if args.have_width ∧ (negative ∨ args.prepend_plus ∨ args.prepend_space)
          then args.width - 1 else args.width
        zero_pad_loop 256 buf2 width
      else buf2
    let buf4 :=
      if buf3.length < 128 then
        if negative then buf3 ++ ['-']
        else if args.prepend_plus then buf3 ++ ['+']
        else if args.prepend_space then buf3 ++ [' ']
        else buf3
      else buf3
    let buf := buf4.reverse
    let padding_width : Int := max 0 (args.width - (buf.length : Int))
    some ((if use_left_pad then [Chunk.rep ' ' padding_width.toNat] else []) ++
      [Chunk.str buf] ++
      (if use_right_pad then [Chunk.rep ' ' padding_width.toNat] else []))

end V1

namespace V2

/-! ### The newer zpr generation, src/unnamed/part_001

This file is a rewrite of zpr.h (version 2.x).  The claims about the
`char` formatter and the iterable formatter cite this generation; its
digit printers return a pointer into the tail of a caller buffer, which
we model as the digit list directly.
-/

/-- The `hex_digit` lambda of the newer `print_hex_integer`
(src/unnamed/part_001 lines 1233-1238); here the non-digit branch is
`'a' + x - 10`. -/
def hex_digit (x : Nat) : Char :=
  if x ≤ 9 then Char.ofNat ('0'.toNat + x) else Char.ofNat ('a'.toNat + x - 10)

/-- Digit loop of the newer `print_decimal_integer`
(src/unnamed/part_001 lines 1315-1332, the lookup-table build): a pair
per step while `value >= 100`, then one digit if `value < 10` (thus
zero prints `'0'`) or a final pair. -/
def print_decimal_integer_nat : Nat → Nat → List Char
  | 0, _ => []
  | fuel + 1, value =>
      if value ≥ 100 then
        print_decimal_integer_nat fuel (value / 100) ++ dec_pair (value % 100)
      else if value < 10 then [digit_char value]
      else dec_pair value

/-- The newer `print_decimal_integer` (src/unnamed/part_001 lines
1291-1347). -/
def print_decimal_integer (value : Int) : List Char :=
  if value < 0 then '-' :: print_decimal_integer_nat 70 (-value).toNat
  else print_decimal_integer_nat 70 value.toNat

/-- Digit loop of the newer `print_hex_integer`
(src/unnamed/part_001 lines 1243-1262): a pair of `value & 0xFF` per
step while `value >= 0x100`, then one digit through `hex_digit` if
`value < 0x10`, or a final pair. -/
def print_hex_integer_nat : Nat → Nat → List Char
  | 0, _ => []
  | fuel + 1, value =>
      if value ≥ 0x100 then
        print_hex_integer_nat fuel (value / 0x100) ++ hex_pair (value % 0x100)
      else if value < 0x10 then [hex_digit value]
      else hex_pair value

/-- The newer `print_hex_integer` (src/unnamed/part_001 lines 1216-1275). -/
def print_hex_integer (value : Nat) : List Char := print_hex_integer_nat 70 value

/-- The newer `print_binary_integer` (src/unnamed/part_001 lines
1277-1288): a do-while, so at least one digit is emitted. -/
def print_binary_integer_nat : Nat → Nat → List Char
  | 0, _ => []
  | fuel + 1, value =>
      (if value / 2 > 0 then print_binary_integer_nat fuel (value / 2) else []) ++
      [digit_char (value % 2)]

/-- The newer `print_binary_integer` with fuel covering 64 bits. -/
def print_binary_integer (value : Nat) : List Char := print_binary_integer_nat 70 value

/-- The newer `print_integer` (src/unnamed/part_001 lines 1349-1355). -/
def print_integer (value : Int) (base : Nat) : List Char :=
  if base = 2 then print_binary_integer value.toNat
  else if base = 16 then print_hex_integer value.toNat
  else print_decimal_integer value

/-- The newer `print_string` (src/unnamed/part_001 lines 830-856):
precision truncates the displayed length, width pads with `'0'` when
the zero-pad flag is set and `' '` otherwise, on the left for positive
width and on the right for negative width. -/
def print_string (s : List Char) (args : format_args) : List Chunk :=
  let string_length : Int :=
    if args.have_precision then min args.precision (s.length : Int) else (s.length : Int)
  let padding_width : Int := args.width - string_length
  (if args.positive_width ∧ padding_width > 0 then
    [Chunk.rep (if args.zero_pad then '0' else ' ') padding_width.toNat] else []) ++
  [Chunk.str (s.take string_length.toNat)] ++
  (if args.negative_width ∧ padding_width > 0 then
    [Chunk.rep (if args.zero_pad then '0' else ' ') padding_width.toNat] else [])

/--
`zpr::detail::__int_formatter<T>::print` (src/unnamed/part_001 lines
2011-2136).  Differences from the older generation: a leading
`specifier == 'c'` branch renders the low byte as a one-character
string; the uppercase step subtracts `0x20` from every digit character
whenever the specifier is an uppercase letter.  The prefix and padding
logic is identical to the older generation.
-/
def int_formatter_print (signed : Bool) (bits : Nat) (x : Int)
    (args0 : format_args) : List Chunk :=
  if args0.specifier = code 'c' then
    print_string [Char.ofNat (x % (2 ^ bits : Int) % 256).toNat] args0
  else
  let bargs : Nat × format_args :=
    if Int.lor args0.specifier 0x20 = code 'x' then (16, args0)
    else if args0.specifier = code 'b' then (2, args0)
    else if args0.specifier = code 'p' then
      (16, {args0 with specifier := code 'x', flag_alternate := true})
    else (10, args0)
  let base := bargs.1
  let args := bargs.2
  let digits0 : List Char :=
    if !signed then print_integer x base
    else if base = 16 then print_integer (x % (2 ^ bits : Int)) base
    else print_integer (Int.ofNat x.natAbs) base
  let digits : List Char :=
    if code 'A' ≤ args.specifier ∧ args.specifier ≤ code 'Z' then
      digits0.map (fun c => Char.ofNat (c.toNat - 0x20))
    else digits0
  let pfx : List Char := V1.sign_pfx x base args ++ V1.radix_pfx base args
  let pfx_len : Int := pfx.length
  let pfx_digits_length : Int := (V1.radix_pfx base args).length
  let digits_len : Int := digits.length
  let output_length_with_precision : Int :=
    if args.have_precision then max args.precision digits_len else digits_len
  let total_digits_length := pfx_digits_length + digits_len
  let normal_length := pfx_len + digits_len
  let length_with_precision := pfx_len + output_length_with_precision
  let padding_width := args.width - length_with_precision
  let zeropad_width := args.width - normal_length
  let precpad_width := args.precision - total_digits_length
  let use_precision := args.have_precision && decide (precpad_width > 0)
  let use_zero_pad := args.zero_pad && args.positive_width && !args.have_precision
    && decide (zeropad_width > 0)
  let use_left_pad := (!(args.zero_pad && args.positive_width && !args.have_precision))
    && args.positive_width && decide (padding_width > 0)
  let use_right_pad := (!(args.zero_pad && args.positive_width && !args.have_precision))
    && args.negative_width && decide (padding_width > 0)
  (if use_left_pad then [Chunk.rep ' ' padding_width.toNat] else []) ++
  [Chunk.str pfx] ++
  (if use_zero_pad then [Chunk.rep '0' zeropad_width.toNat] else []) ++
  (if use_precision then [Chunk.rep '0' precpad_width.toNat] else []) ++
  [Chunk.str digits] ++
  (if use_right_pad then [Chunk.rep ' ' padding_width.toNat] else [])

/--
`zpr::print_formatter<char>::print` (src/unnamed/part_001 lines
2208-2225): a `char` with an explicit specifier other than `'c'` is
cast to `unsigned char` and rendered through
`print_formatter<unsigned char>` (the integral formatter); otherwise it
goes through `print_string` as a one-character string.
-/
def print_formatter_char (x : Char) (args : format_args) : List Chunk :=
  if args.specifier ≠ -1 ∧ args.specifier ≠ code 'c' then
    int_formatter_print false 8 ((x.toNat : Int) % 256) args
  else
    print_string [x] args

/-- The element loop of the iterable formatter (src/unnamed/part_001
lines 2285-2299): renders each element through `print_one` with the
outer `args` (here the abstract element renderer `re`), separating
consecutive elements with `", "` unless the alternate flag is set. -/
def iterable_loop {α : Type} (re : α → format_args → List Chunk)
    (args : format_args) (x : α) : List α → List Chunk
  | [] => re x args
  | y :: rest =>
      re x args ++ (if !args.alternate then [Chunk.str [',', ' ']] else []) ++
      iterable_loop re args y rest

/--
`zpr::print_formatter<T>::print` for iterables of non-`char` element
type (src/unnamed/part_001 lines 2265-2304): `"[ ]"` for an empty
iterable, otherwise `"["`, the elements separated by `", "`, and `"]"`,
with every bracket and separator suppressed when the alternate flag is
set.  `re` stands for the `print_one` dispatch on the element type.
-/
def print_formatter_iterable {α : Type} (re : α → format_args → List Chunk)
    (xs : List α) (args : format_args) : List Chunk :=
  match xs with
  | [] => if !args.alternate then [Chunk.str ['[', ' ', ']']] else []
  | x :: rest =>
      (if !args.alternate then [Chunk.str ['[']] else []) ++
      iterable_loop re args x rest ++
      (if !args.alternate then [Chunk.str [']']] else [])

end V2

/-! ### Statement-side helpers for the theorems below -/

/-- The number of tuple slots one specifier consumes, by its dynamic
width/precision requirements (the `tup_idx += ...` increments at
src/zpr.h lines 1368, 1391, 1414, 1431). -/
def spec_slots (needw needp : Bool) : Nat :=
  if needw ∧ needp then 3 else if needw ∨ needp then 2 else 1

/-- The sentinel string the driver substitutes when the whole argument
tuple is statically smaller than the specifier's slot count. -/
def spec_sentinel (needw needp : Bool) : List Char :=
  if needw ∧ needp then V1.missing_width_and_prec
  else if needw then V1.missing_width
  else if needp then V1.missing_prec
  else V1.missing_value

/-- Membership in the flag alphabet of the spec parser
(src/zpr.h lines 628-636). -/
def is_flag_char (c : Char) : Bool :=
  c = '0' ∨ c = '#' ∨ c = '-' ∨ c = '+' ∨ c = ' '

/-- A rational is dyadic when it is an integer over a power of two;
every finite IEEE-754 double's exact value has this form. -/
def dyadic (q : ℚ) : Prop := ∃ (m : Int) (k : Nat), q = (m : ℚ) / 2 ^ k

end Zpr

namespace Zpr

/-!
## Claim theorems
-/

/--
C3 (code_bug evidence): in src/zpr.h, formatting the unsigned value 15
with type character `x` produces `"p"`, and 2748 (`0xabc`) produces
`"kbc"`: the `hex_digit` lambda at line 1228 maps a digit value
`x ≥ 10` to `'a' + x` instead of `'a' + (x - 10)`, so every leading hex
digit in `a..f` (the leading digit goes through `hex_digit`, the digit
pairs through the correct lookup table) is shifted ten letters up.  The
claim (and `printf %x`, and the repaired `hex_digit` of the newer
rewrite in src/unnamed/part_001 line 1237, which renders `15` as `"f"`)
requires lowercase digits from `0-9a-f`.  The `X` clause of the claim
does hold in src/zpr.h: `toupper` is applied to every digit post-hoc.
-/
theorem c3_hex_digit_slip :
    chunksChars (V1.int_formatter_print false 32 15 {specifier := code 'x'}) = ['p']
    ∧ chunksChars (V1.int_formatter_print false 32 2748 {specifier := code 'x'}) = ['k', 'b', 'c']
    ∧ V1.hex_digit 15 = 'p'
    ∧ V2.print_hex_integer 15 = ['f']
    ∧ chunksChars (V1.int_formatter_print false 32 255 {specifier := code 'X'}) = ['F', 'F'] := by
  refine ⟨by decide, by decide, by decide, by decide, by decide⟩

/--
C4 (counterexample): rendering the signed integer `-5` in decimal with
the `+` flag set produces `"+5"` — the output's sign character is `'+'`
and no `'-'` appears, although the claim demands `'-'` always for
negative decimal values and `'+'` only for non-negative ones
(src/zpr.h lines 1796-1803: the `prepend_plus`/`prepend_space` branches
are tested before the `x < 0` branch).
-/
theorem c4_counterexample :
    chunksChars (V1.int_formatter_print true 32 (-5) {flag_prepend_plus := true}) = ['+', '5']
    ∧ '-' ∉ chunksChars (V1.int_formatter_print true 32 (-5) {flag_prepend_plus := true}) := by
  refine ⟨by decide, by decide⟩

/--
C4 (amended): in the decimal integer path the sign character is chosen
with `'+'` and `' '` taking precedence over `'-'`: a requested `+` flag
always yields `'+'` (even for a negative value), otherwise a requested
space flag always yields `' '`, and only when neither flag is requested
does a negative decimal value get `'-'` (a non-negative one gets no
sign character); with no sign flags, `-5` renders as `"-5"`.
-/
theorem c4_sign_flag_precedence :
    (∀ (x : Int) (args : format_args),
      (args.prepend_plus = true → V1.sign_pfx x 10 args = ['+'])
      ∧ (args.prepend_plus = false → args.prepend_space = true →
          V1.sign_pfx x 10 args = [' '])
      ∧ (args.prepend_plus = false → args.prepend_space = false → x < 0 →
          V1.sign_pfx x 10 args = ['-'])
      ∧ (args.prepend_plus = false → args.prepend_space = false → 0 ≤ x →
          V1.sign_pfx x 10 args = []))
    ∧ chunksChars (V1.int_formatter_print true 32 (-5) {}) = ['-', '5'] := by
  refine ⟨fun x args => ⟨?_, ?_, ?_, ?_⟩, by decide⟩
  · intro h
    simp [V1.sign_pfx, h]
  · intro h1 h2
    simp [V1.sign_pfx, h1, h2]
  · intro h1 h2 h3
    simp [V1.sign_pfx, h1, h2, h3]
  · intro h1 h2 h3
    simp [V1.sign_pfx, h1, h2]
    omega

/-- C4 witness: the amended statement applied at `x = -7` with only the
space flag, and at `x = -5` with no flags. -/
theorem c4_sign_flag_precedence_witness :
    V1.sign_pfx (-7) 10 {flag_prepend_space := true} = [' ']
    ∧ V1.sign_pfx (-7) 10 {} = ['-'] := by
  refine ⟨((c4_sign_flag_precedence.1 (-7) {flag_prepend_space := true}).2.1 (by decide) (by decide)),
    ((c4_sign_flag_precedence.1 (-7) {}).2.2.1 (by decide) (by decide) (by decide))⟩

/--
C1 (counterexample): with format string `"{}{}"` and the single
argument `5`, the argument stream is exhausted at the second specifier,
yet the driver emits no `"<missing value>"` sentinel: the output is
exactly `"5"` (and contains no `'<'` at all), while the cursor still
advances past the second specifier.  The sentinel branch is guarded by
the compile-time check `Tuple::tuple_size >= 1` on the whole argument
tuple (src/zpr.h line 1418), not by a runtime check of `tup_idx`;
`visit_one` (lines 707-719) simply runs off the end of its recursion
and renders nothing.
-/
theorem c1_counterexample :
    V1.sprint ['{', '}', '{', '}'] [5] = ['5']
    ∧ (V1.print_run ['{', '}', '{', '}'] [5]).2 = 2
    ∧ '<' ∉ V1.sprint ['{', '}', '{', '}'] [5] := by
  refine ⟨by decide, by decide, by decide⟩

/--
C5: the driver's literal-brace escapes.  Scanning `"{{"` flushes the
pending plain text, emits one literal `'{'`, consumes no argument (the
cursor is unchanged) and continues after the pair; scanning `"}}"` does
the same with one literal `'}'`.  Concretely, `"{{}}"` with zero
arguments renders as `"{}"` with no argument consumed, and `"{{{}}}"`
with the single integer argument `5` renders as `"{5}"`.
-/
theorem c5_brace_escapes :
    (∀ (args : List Int) (fuel : Nat) (pending rest : List Char) (idx : Nat),
      V1.print_loop args (fuel + 1) pending ('{' :: '{' :: rest) idx =
        (Chunk.str pending :: Chunk.chr '{' :: (V1.print_loop args fuel [] rest idx).1,
         (V1.print_loop args fuel [] rest idx).2))
    ∧ (∀ (args : List Int) (fuel : Nat) (pending rest : List Char) (idx : Nat),
      V1.print_loop args (fuel + 1) pending ('}' :: '}' :: rest) idx =
        (Chunk.str pending :: Chunk.chr '}' :: (V1.print_loop args fuel [] rest idx).1,
         (V1.print_loop args fuel [] rest idx).2))
    ∧ V1.sprint ['{', '{', '}', '}'] [] = ['{', '}']
    ∧ (V1.print_run ['{', '{', '}', '}'] []).2 = 0
    ∧ V1.sprint ['{', '{', '{', '}', '}', '}'] [5] = ['{', '5', '}'] := by
  refine ⟨fun args fuel pending rest idx => rfl,
    fun args fuel pending rest idx => rfl, by decide, by decide, by decide⟩

/-- The specifier scan finds no closing brace exactly when the input
holds none. -/
theorem V1.splitRB_eq_none (l : List Char) (h : '}' ∉ l) : V1.splitRB l = none := by
  induction l with
  | nil => rfl
  | cons c cs ih =>
      have hc : c ≠ '}' := fun hc => h (hc ▸ List.mem_cons_self c cs)
      have hcs : '}' ∉ cs := fun hm => h (List.mem_cons_of_mem c hm)
      simp [V1.splitRB, hc, ih hcs]

/-- The specifier scan stops at the first closing brace. -/
theorem V1.splitRB_append (spec rest : List Char) (h : '}' ∉ spec) :
    V1.splitRB (spec ++ '}' :: rest) = some (spec, rest) := by
  induction spec with
  | nil => simp [V1.splitRB]
  | cons c cs ih =>
      have hc : c ≠ '}' := fun hc => h (hc ▸ List.mem_cons_self c cs)
      have hcs : '}' ∉ cs := fun hm => h (List.mem_cons_of_mem c hm)
      simp [V1.splitRB, hc, ih hcs]

/--
C10: when the driver meets an opening `'{'` (not a `"{{"` escape) whose
specifier is never closed — no `'}'` anywhere in the remainder — it
flushes exactly the plain text scanned so far and returns, emitting
nothing for the unterminated specifier and consuming no argument
(src/zpr.h lines 1329-1334, the `if(!end[0]) return;` path).  `pre` is
the plain-text run before the `'{'` and `pending` the text already
buffered; the result is the single flushed chunk and an unchanged
argument cursor.  Concretely, `"ab{cd"` with one argument renders as
`"ab"` with the argument unconsumed.
-/
theorem c10_unterminated_brace :
    (∀ (pre : List Char) (fuel : Nat) (pending rest : List Char) (args : List Int) (idx : Nat),
      '{' ∉ pre → '}' ∉ pre → '}' ∉ rest → rest.head? ≠ some '{' →
      pre.length ≤ fuel →
      V1.print_loop args (fuel + 1) pending (pre ++ '{' :: rest) idx =
        ([Chunk.str (pending ++ pre)], idx))
    ∧ V1.sprint ['a', 'b', '{', 'c', 'd'] [5] = ['a', 'b']
    ∧ (V1.print_run ['a', 'b', '{', 'c', 'd'] [5]).2 = 0 := by
  refine ⟨?_, by decide, by decide⟩
  intro pre
  induction pre with
  | nil =>
      intro fuel pending rest args idx _ _ hrest hhead _
      simp only [List.nil_append, List.append_nil]
      simp [V1.print_loop, hhead, V1.splitRB_eq_none rest hrest]
  | cons c cs ih =>
      intro fuel pending rest args idx hpre1 hpre2 hrest hhead hlen
      have hc1 : c ≠ '{' := fun hc => hpre1 (hc ▸ List.mem_cons_self c cs)
      have hc2 : c ≠ '}' := fun hc => hpre2 (hc ▸ List.mem_cons_self c cs)
      have hcs1 : '{' ∉ cs := fun hm => hpre1 (List.mem_cons_of_mem c hm)
      have hcs2 : '}' ∉ cs := fun hm => hpre2 (List.mem_cons_of_mem c hm)
      obtain ⟨fuel', rfl⟩ : ∃ f, fuel = f + 1 := by
        cases fuel with
        | zero => simp at hlen
        | succ f => exact ⟨f, rfl⟩
      have hlen' : cs.length ≤ fuel' := by
        simpa using Nat.succ_le_succ_iff.mp (by simpa using hlen)
      calc V1.print_loop args (fuel' + 1 + 1) pending ((c :: cs) ++ '{' :: rest) idx
          = V1.print_loop args (fuel' + 1) (pending ++ [c]) (cs ++ '{' :: rest) idx := by
            simp [V1.print_loop, hc1, hc2]
        _ = ([Chunk.str ((pending ++ [c]) ++ cs)], idx) :=
            ih fuel' (pending ++ [c]) rest args idx hcs1 hcs2 hrest hhead hlen'
        _ = ([Chunk.str (pending ++ c :: cs)], idx) := by
            simp

/-- C10 witness: the general statement applied at `pre = "ab"`,
`rest = "cd"`, one argument and cursor 0. -/
theorem c10_unterminated_brace_witness :
    V1.print_loop [7] 3 [] (['a', 'b'] ++ '{' :: ['c', 'd']) 0 =
      ([Chunk.str ['a', 'b']], 0) := by
  have h := c10_unterminated_brace.1 ['a', 'b'] 2 [] ['c', 'd'] [7] 0
    (by decide) (by decide) (by decide) (by decide) (by decide)
  simpa using h

/-- How one specifier renders, by the size of the argument tuple: its
slot count is `spec_slots`; the sentinel appears exactly when the whole
tuple is smaller than the slot count; when the tuple is large enough
but the cursor has run past it, nothing at all is emitted. -/
theorem V1.render_spec_cases (args : List Int) (idx : Nat) (tok : List Char) :
    (V1.render_spec args idx tok).2 =
      spec_slots (V1.parse_fmt_spec tok).2.1 (V1.parse_fmt_spec tok).2.2
    ∧ (args.length < spec_slots (V1.parse_fmt_spec tok).2.1 (V1.parse_fmt_spec tok).2.2 →
        (V1.render_spec args idx tok).1 =
          [Chunk.str (spec_sentinel (V1.parse_fmt_spec tok).2.1 (V1.parse_fmt_spec tok).2.2)])
    ∧ (spec_slots (V1.parse_fmt_spec tok).2.1 (V1.parse_fmt_spec tok).2.2 ≤ args.length →
        args.length < idx + spec_slots (V1.parse_fmt_spec tok).2.1 (V1.parse_fmt_spec tok).2.2 →
        (V1.render_spec args idx tok).1 = []) := by
  rcases hb1 : (V1.parse_fmt_spec tok).2.1 <;> rcases hb2 : (V1.parse_fmt_spec tok).2.2
  · refine ⟨by simp [V1.render_spec, hb1, hb2, spec_slots], ?_, ?_⟩
    · intro h
      have h0 : args.length < 1 := by simpa [spec_slots] using h
      simp [V1.render_spec, hb1, hb2, spec_sentinel]
      omega
    · intro h1 h2
      have h1' : 1 ≤ args.length := by simpa [spec_slots] using h1
      have h2' : args.length < idx + 1 := by simpa [spec_slots] using h2
      have hnone : args[idx]? = none := List.getElem?_eq_none (by omega)
      simp [V1.render_spec, hb1, hb2, hnone, h1']
  · refine ⟨by simp [V1.render_spec, hb1, hb2, spec_slots], ?_, ?_⟩
    · intro h
      have h0 : args.length < 2 := by simpa [spec_slots] using h
      simp [V1.render_spec, hb1, hb2, spec_sentinel]
      omega
    · intro h1 h2
      have h1' : 2 ≤ args.length := by simpa [spec_slots] using h1
      have h2' : args.length < idx + 2 := by simpa [spec_slots] using h2
      have hnone : args[idx + 1]? = none := List.getElem?_eq_none (by omega)
      rcases hx : args[idx]? with _ | w <;>
        simp [V1.render_spec, hb1, hb2, hx, hnone, h1']
  · refine ⟨by simp [V1.render_spec, hb1, hb2, spec_slots], ?_, ?_⟩
    · intro h
      have h0 : args.length < 2 := by simpa [spec_slots] using h
      simp [V1.render_spec, hb1, hb2, spec_sentinel]
      omega
    · intro h1 h2
      have h1' : 2 ≤ args.length := by simpa [spec_slots] using h1
      have h2' : args.length < idx + 2 := by simpa [spec_slots] using h2
      have hnone : args[idx + 1]? = none := List.getElem?_eq_none (by omega)
      rcases hx : args[idx]? with _ | w <;>
        simp [V1.render_spec, hb1, hb2, hx, hnone, h1']
  · refine ⟨by simp [V1.render_spec, hb1, hb2, spec_slots], ?_, ?_⟩
    · intro h
      have h0 : args.length < 3 := by simpa [spec_slots] using h
      simp [V1.render_spec, hb1, hb2, spec_sentinel]
      omega
    · intro h1 h2
      have h1' : 3 ≤ args.length := by simpa [spec_slots] using h1
      have h2' : args.length < idx + 3 := by simpa [spec_slots] using h2
      have hnone : args[idx + 2]? = none := List.getElem?_eq_none (by omega)
      rcases hx : args[idx]? with _ | w <;>
        rcases hy : args[idx + 1]? with _ | p <;>
        simp [V1.render_spec, hb1, hb2, hx, hy, hnone, h1']

/--
C1 (amended): the sentinel diagnostics (`"<missing value>"`,
`"<missing width>"`, `"<missing prec>"`, `"<missing width and prec>"`)
are emitted exactly when the argument tuple as a whole is statically
smaller than the specifier's slot count (1 for a plain specifier, 2
with one dynamic component, 3 with dynamic width and precision); when
the tuple is large enough overall but the left-to-right cursor has
already run past its end, the specifier renders nothing at all.  In
both cases the driver advances the cursor by the slot count and
continues processing the remainder of the format string; it never
throws and never aborts the call (the scan is a total function).
-/
theorem c1_missing_argument_driver :
    ∀ (spec rest : List Char) (args : List Int) (fuel : Nat) (pending : List Char) (idx : Nat),
      '}' ∉ spec → '{' ∉ spec →
      (args.length <
          spec_slots (V1.parse_fmt_spec ('{' :: spec ++ ['}'])).2.1
            (V1.parse_fmt_spec ('{' :: spec ++ ['}'])).2.2 →
        V1.print_loop args (fuel + 1) pending ('{' :: spec ++ '}' :: rest) idx =
          (Chunk.str pending ::
            Chunk.str (spec_sentinel (V1.parse_fmt_spec ('{' :: spec ++ ['}'])).2.1
              (V1.parse_fmt_spec ('{' :: spec ++ ['}'])).2.2) ::
            (V1.print_loop args fuel [] rest
              (idx + spec_slots (V1.parse_fmt_spec ('{' :: spec ++ ['}'])).2.1
                (V1.parse_fmt_spec ('{' :: spec ++ ['}'])).2.2)).1,
           (V1.print_loop args fuel [] rest
              (idx + spec_slots (V1.parse_fmt_spec ('{' :: spec ++ ['}'])).2.1
                (V1.parse_fmt_spec ('{' :: spec ++ ['}'])).2.2)).2))
      ∧ (spec_slots (V1.parse_fmt_spec ('{' :: spec ++ ['}'])).2.1
            (V1.parse_fmt_spec ('{' :: spec ++ ['}'])).2.2 ≤ args.length →
         args.length <
          idx + spec_slots (V1.parse_fmt_spec ('{' :: spec ++ ['}'])).2.1
            (V1.parse_fmt_spec ('{' :: spec ++ ['}'])).2.2 →
        V1.print_loop args (fuel + 1) pending ('{' :: spec ++ '}' :: rest) idx =
          (Chunk.str pending ::
            (V1.print_loop args fuel [] rest
              (idx + spec_slots (V1.parse_fmt_spec ('{' :: spec ++ ['}'])).2.1
                (V1.parse_fmt_spec ('{' :: spec ++ ['}'])).2.2)).1,
           (V1.print_loop args fuel [] rest
              (idx + spec_slots (V1.parse_fmt_spec ('{' :: spec ++ ['}'])).2.1
                (V1.parse_fmt_spec ('{' :: spec ++ ['}'])).2.2)).2)) := by
  intro spec rest args fuel pending idx hs1 hs2
  have hcases := V1.render_spec_cases args idx ('{' :: spec ++ ['}'])
  have hstep : V1.print_loop args (fuel + 1) pending ('{' :: spec ++ '}' :: rest) idx =
      (Chunk.str pending :: (V1.render_spec args idx ('{' :: spec ++ ['}'])).1 ++
        (V1.print_loop args fuel [] rest
          (idx + (V1.render_spec args idx ('{' :: spec ++ ['}'])).2)).1,
       (V1.print_loop args fuel [] rest
          (idx + (V1.render_spec args idx ('{' :: spec ++ ['}'])).2)).2) := by
    cases spec with
    | nil => rfl
    | cons s ss =>
        have hs : s ≠ '{' := fun h => hs2 (h ▸ List.mem_cons_self s ss)
        have hsplit := V1.splitRB_append (s :: ss) rest hs1
        simp only [List.cons_append] at hsplit ⊢
        simp only [V1.print_loop, List.head?_cons, Option.some.injEq, hs, if_false,
          eq_self_iff_true, if_true, hsplit]
        rfl
  constructor
  · intro hlen
    rw [hstep, hcases.1, hcases.2.1 hlen]
    simp
  · intro hlen1 hlen2
    rw [hstep, hcases.1, hcases.2.2 hlen1 hlen2]
    simp

/-- C1 witness: the amended statement at the empty specifier `"{}"`
with no arguments (emitting `"<missing value>"`), and at `"{}"` with a
one-element tuple whose cursor already sits at 1 (emitting nothing). -/
theorem c1_missing_argument_driver_witness :
    V1.print_loop ([] : List Int) 1 [] ('{' :: [] ++ '}' :: []) 0 =
      (Chunk.str [] :: Chunk.str V1.missing_value :: [Chunk.str []], 1)
    ∧ V1.print_loop [5] 1 [] ('{' :: [] ++ '}' :: []) 1 =
      (Chunk.str [] :: [Chunk.str []], 2) := by
  constructor
  · have h := (c1_missing_argument_driver [] [] [] 0 [] 0 (by decide) (by decide)).1
      (by decide)
    simpa [spec_slots, spec_sentinel, V1.parse_fmt_spec, V1.parse_flags, V1.parse_width,
      V1.parse_precision, V1.parse_type_char, V1.print_loop] using h
  · have h := (c1_missing_argument_driver [] [] [5] 0 [] 1 (by decide) (by decide)).2
      (by decide) (by decide)
    simpa [spec_slots, spec_sentinel, V1.parse_fmt_spec, V1.parse_flags, V1.parse_width,
      V1.parse_precision, V1.parse_type_char, V1.print_loop] using h

/-- The repeat-write loop never grows the buffer past its capacity. -/
theorem V1.put_rep_go_length (fuel : Nat) :
    ∀ (b : V1.buffer_appender) (c : Char) (n i : Nat),
      b.data.length ≤ b.cap →
      (V1.buffer_appender.put_rep_go fuel b c n i).data.length ≤ b.cap := by
  induction fuel with
  | zero => intro b c n i h; exact h
  | succ fuel ih =>
      intro b c n i h
      simp only [V1.buffer_appender.put_rep_go]
      by_cases hg : i < min (b.cap - b.data.length) n
      · rw [if_pos hg]
        have := ih {b with data := b.data ++ [c]} c n (i + 1) (by simp; omega)
        simpa using this
      · rw [if_neg hg]; exact h

/-- The repeat-write loop does not change the capacity. -/
theorem V1.put_rep_go_cap (fuel : Nat) :
    ∀ (b : V1.buffer_appender) (c : Char) (n i : Nat),
      (V1.buffer_appender.put_rep_go fuel b c n i).cap = b.cap := by
  induction fuel with
  | zero => intro b c n i; rfl
  | succ fuel ih =>
      intro b c n i
      simp only [V1.buffer_appender.put_rep_go]
      by_cases hg : i < min (b.cap - b.data.length) n
      · rw [if_pos hg]
        simpa using ih {b with data := b.data ++ [c]} c n (i + 1)
      · rw [if_neg hg]

/-- One sink write preserves the capacity field. -/
theorem V1.append_chunk_cap (b : V1.buffer_appender) (ck : Chunk) :
    (b.append_chunk ck).cap = b.cap := by
  cases ck with
  | str s => rfl
  | chr c =>
      simp only [V1.buffer_appender.append_chunk, V1.buffer_appender.put_char]
      split <;> rfl
  | rep c n => exact V1.put_rep_go_cap _ b c n 0

/-- One sink write keeps the accepted length within the capacity. -/
theorem V1.append_chunk_length (b : V1.buffer_appender) (ck : Chunk)
    (h : b.data.length ≤ b.cap) : (b.append_chunk ck).data.length ≤ b.cap := by
  cases ck with
  | str s =>
      simp only [V1.buffer_appender.append_chunk, V1.buffer_appender.put_str,
        List.length_append, List.length_take]
      omega
  | chr c =>
      simp only [V1.buffer_appender.append_chunk, V1.buffer_appender.put_char]
      split
      · simpa using by omega
      · exact h
  | rep c n => exact V1.put_rep_go_length _ b c n 0 h

/-- A full buffer absorbs any further write unchanged. -/
theorem V1.append_chunk_full (b : V1.buffer_appender) (ck : Chunk)
    (h : b.data.length = b.cap) : b.append_chunk ck = b := by
  cases ck with
  | str s =>
      simp [V1.buffer_appender.append_chunk, V1.buffer_appender.put_str, h]
  | chr c =>
      simp [V1.buffer_appender.append_chunk, V1.buffer_appender.put_char, h]
  | rep c n =>
      simp [V1.buffer_appender.append_chunk, V1.buffer_appender.put_rep,
        V1.buffer_appender.put_rep_go, h]

/-- Folding any chunk stream into the buffer keeps the accepted length
within the capacity. -/
theorem V1.foldl_append_chunk_length (cks : List Chunk) :
    ∀ (b : V1.buffer_appender), b.data.length ≤ b.cap →
      (List.foldl V1.buffer_appender.append_chunk b cks).data.length ≤
        (List.foldl V1.buffer_appender.append_chunk b cks).cap := by
  induction cks with
  | nil => intro b h; exact h
  | cons ck cks ih =>
      intro b h
      simp only [List.foldl_cons]
      exact ih (b.append_chunk ck) (by rw [V1.append_chunk_cap]; exact V1.append_chunk_length b ck h)

/-- Folding preserves the capacity. -/
theorem V1.foldl_append_chunk_cap (cks : List Chunk) :
    ∀ (b : V1.buffer_appender),
      (List.foldl V1.buffer_appender.append_chunk b cks).cap = b.cap := by
  induction cks with
  | nil => intro b; rfl
  | cons ck cks ih =>
      intro b
      simp only [List.foldl_cons]
      rw [ih, V1.append_chunk_cap]

/--
C6: the fixed-capacity sink never writes past its capacity.  Every
write through any of `buffer_appender`'s operator overloads keeps the
accepted byte count within the capacity; once the buffer holds exactly
`cap` bytes, every further write returns the state unchanged (a silent
no-op, no error); and for every formatting call, the byte count
`zpr::sprint(buf, len, ...)` reports — the appender's final size — is
at most the capacity.
-/
theorem c6_buffer_truncation :
    (∀ (b : V1.buffer_appender) (ck : Chunk),
      b.data.length ≤ b.cap → (b.append_chunk ck).data.length ≤ b.cap)
    ∧ (∀ (b : V1.buffer_appender) (ck : Chunk),
      b.data.length = b.cap → b.append_chunk ck = b)
    ∧ (∀ (cap : Nat) (fmt : List Char) (args : List Int),
      V1.sprint_into cap fmt args ≤ cap) := by
  refine ⟨V1.append_chunk_length, V1.append_chunk_full, ?_⟩
  intro cap fmt args
  have h := V1.foldl_append_chunk_length (V1.print_run fmt args).1
    ⟨cap, []⟩ (by simp)
  rwa [V1.foldl_append_chunk_cap] at h

/-- C6 witness: a buffer of capacity 2 holding two bytes absorbs one
more write unchanged and stays within capacity, and an 8-byte render
into a 3-byte buffer reports 3 bytes. -/
theorem c6_buffer_truncation_witness :
    ((⟨2, ['x', 'y']⟩ : V1.buffer_appender).append_chunk (Chunk.chr 'z')).data.length ≤ 2
    ∧ (⟨2, ['x', 'y']⟩ : V1.buffer_appender).append_chunk (Chunk.str ['a', 'b']) =
        (⟨2, ['x', 'y']⟩ : V1.buffer_appender)
    ∧ V1.sprint_into 3 ['{', '}'] [12345678] ≤ 3 := by
  exact ⟨c6_buffer_truncation.1 ⟨2, ['x', 'y']⟩ (Chunk.chr 'z') (by decide),
    c6_buffer_truncation.2.1 ⟨2, ['x', 'y']⟩ (Chunk.str ['a', 'b']) (by decide),
    c6_buffer_truncation.2.2 3 ['{', '}'] [12345678]⟩

/--
C7: the `char` formatter's asymmetry in the newer zpr generation
(src/unnamed/part_001 lines 2208-2225).  With the type character unset
(`-1`) or equal to `'c'`, a `char` goes through the string renderer as
a one-character string; with any explicit other type character, it is
cast to `unsigned char` (its code point, mod 256) and rendered through
the integral formatter.  Concretely, `'a'` renders as `"a"` by default
and under `c`, as `"61"` under `x` and as `"97"` under `d`.
-/
theorem c7_char_formatter_asymmetry :
    (∀ (x : Char) (args : format_args),
      args.specifier = -1 ∨ args.specifier = code 'c' →
      V2.print_formatter_char x args = V2.print_string [x] args)
    ∧ (∀ (x : Char) (args : format_args),
      args.specifier ≠ -1 → args.specifier ≠ code 'c' →
      V2.print_formatter_char x args =
        V2.int_formatter_print false 8 ((x.toNat : Int) % 256) args)
    ∧ chunksChars (V2.print_formatter_char 'a' {}) = ['a']
    ∧ chunksChars (V2.print_formatter_char 'a' {specifier := code 'c'}) = ['a']
    ∧ chunksChars (V2.print_formatter_char 'a' {specifier := code 'x'}) = ['6', '1']
    ∧ chunksChars (V2.print_formatter_char 'a' {specifier := code 'd'}) = ['9', '7'] := by
  refine ⟨?_, ?_, by decide, by decide, by decide, by decide⟩
  · intro x args h
    rcases h with h | h <;> simp [V2.print_formatter_char, h]
  · intro x args h1 h2
    simp [V2.print_formatter_char, h1, h2]

/-- C7 witness: the dispatch statement applied at `'z'` with the unset
specifier and with specifier `'x'`. -/
theorem c7_char_formatter_asymmetry_witness :
    V2.print_formatter_char 'z' {} = V2.print_string ['z'] {}
    ∧ V2.print_formatter_char 'z' {specifier := code 'x'} =
        V2.int_formatter_print false 8 (('z'.toNat : Int) % 256) {specifier := code 'x'} := by
  exact ⟨c7_char_formatter_asymmetry.1 'z' {} (Or.inl rfl),
    c7_char_formatter_asymmetry.2.1 'z' {specifier := code 'x'} (by decide) (by decide)⟩

/-- Splitting a chunk stream splits its character stream. -/
theorem chunksChars_append (l1 l2 : List Chunk) :
    chunksChars (l1 ++ l2) = chunksChars l1 ++ chunksChars l2 := by
  simp [chunksChars]

/-- The iterable element loop emits the element renders joined by
`", "`, or plainly concatenated under the alternate flag. -/
theorem V2.iterable_loop_chars {α : Type} (re : α → format_args → List Chunk)
    (args : format_args) :
    ∀ (rest : List α) (x : α),
      (args.alternate = false →
        chunksChars (V2.iterable_loop re args x rest) =
          List.intercalate [',', ' '] ((x :: rest).map fun y => chunksChars (re y args)))
      ∧ (args.alternate = true →
        chunksChars (V2.iterable_loop re args x rest) =
          ((x :: rest).map fun y => chunksChars (re y args)).flatten) := by
  intro rest
  induction rest with
  | nil =>
      intro x
      constructor <;> intro h <;> simp [V2.iterable_loop, List.intercalate]
  | cons y ys ih =>
      intro x
      constructor <;> intro h
      · rw [show V2.iterable_loop re args x (y :: ys) =
            re x args ++ (if !args.alternate then [Chunk.str [',', ' ']] else []) ++
              V2.iterable_loop re args y ys from rfl]
        rw [chunksChars_append, chunksChars_append, (ih y).1 h]
        simp [h, List.intercalate, List.intersperse_cons_cons, chunksChars, Chunk.chars]
      · rw [show V2.iterable_loop re args x (y :: ys) =
            re x args ++ (if !args.alternate then [Chunk.str [',', ' ']] else []) ++
              V2.iterable_loop re args y ys from rfl]
        rw [chunksChars_append, chunksChars_append, (ih y).2 h]
        simp [h, chunksChars]

/--
C8: the iterable formatter of the newer zpr generation
(src/unnamed/part_001 lines 2265-2304), for any element renderer `re`
(the `print_one` dispatch on the element type).  Without the alternate
flag, an empty iterable renders as `"[ ]"` and a non-empty one as `"["`
followed by the element renders separated by `", "` followed by `"]"`;
with the alternate flag set, the brackets and separators are suppressed
entirely: an empty iterable renders as nothing and a non-empty one as
the plain concatenation of the element renders.
-/
theorem c8_iterable_rendering :
    ∀ {α : Type} (re : α → format_args → List Chunk) (args : format_args) (xs : List α),
      (args.alternate = false → xs = [] →
        chunksChars (V2.print_formatter_iterable re xs args) = ['[', ' ', ']'])
      ∧ (args.alternate = false → ∀ (x : α) (rest : List α), xs = x :: rest →
        chunksChars (V2.print_formatter_iterable re xs args) =
          ['['] ++ List.intercalate [',', ' '] (xs.map fun y => chunksChars (re y args))
            ++ [']'])
      ∧ (args.alternate = true → xs = [] →
        chunksChars (V2.print_formatter_iterable re xs args) = [])
      ∧ (args.alternate = true →
        chunksChars (V2.print_formatter_iterable re xs args) =
          (xs.map fun y => chunksChars (re y args)).flatten) := by
  intro α re args xs
  refine ⟨?_, ?_, ?_, ?_⟩
  · intro h hnil
    subst hnil
    simp [V2.print_formatter_iterable, h, chunksChars, Chunk.chars]
  · intro h x rest hcons
    subst hcons
    rw [show V2.print_formatter_iterable re (x :: rest) args =
        (if !args.alternate then [Chunk.str ['[']] else []) ++
          V2.iterable_loop re args x rest ++
          (if !args.alternate then [Chunk.str [']']] else []) from rfl]
    rw [chunksChars_append, chunksChars_append, (V2.iterable_loop_chars re args rest x).1 h]
    simp [h, chunksChars, Chunk.chars]
  · intro h hnil
    subst hnil
    simp [V2.print_formatter_iterable, h, chunksChars]
  · intro h
    cases xs with
    | nil => simp [V2.print_formatter_iterable, h, chunksChars]
    | cons x rest =>
        rw [show V2.print_formatter_iterable re (x :: rest) args =
            (if !args.alternate then [Chunk.str ['[']] else []) ++
              V2.iterable_loop re args x rest ++
              (if !args.alternate then [Chunk.str [']']] else []) from rfl]
        rw [chunksChars_append, chunksChars_append, (V2.iterable_loop_chars re args rest x).2 h]
        simp [h, chunksChars]

/-- C8 witness: the statement applied to the integral element renderer,
matching the spec's concrete scenario `{1,2,3}` → `"[1, 2, 3]"`, and
the same container under the alternate flag → `"123"`. -/
theorem c8_iterable_rendering_witness :
    chunksChars (V2.print_formatter_iterable
        (fun (n : Int) a => V2.int_formatter_print true 32 n a) [1, 2, 3] {}) =
      ['[', '1', ',', ' ', '2', ',', ' ', '3', ']']
    ∧ chunksChars (V2.print_formatter_iterable
        (fun (n : Int) a => V2.int_formatter_print true 32 n a) [1, 2, 3]
        {flag_alternate := true}) = ['1', '2', '3'] := by
  constructor
  · rw [(c8_iterable_rendering (fun (n : Int) a => V2.int_formatter_print true 32 n a)
      {} [1, 2, 3]).2.1 rfl 1 [2, 3] rfl]
    decide
  · rw [(c8_iterable_rendering (fun (n : Int) a => V2.int_formatter_print true 32 n a)
      {flag_alternate := true} [1, 2, 3]).2.2.2 rfl]
    decide

/-- The flag loop stops at the first non-flag character. -/
theorem V1.parse_flags_stop (fa : format_args) (rest : List Char)
    (h : ∀ c, rest.head? = some c → is_flag_char c = false) :
    V1.parse_flags fa rest = (fa, rest) := by
  cases rest with
  | nil => rfl
  | cons c rs =>
      have hc := h c rfl
      simp only [is_flag_char, decide_eq_false_iff_not, not_or] at hc
      simp [V1.parse_flags, hc.1, hc.2.1, hc.2.2.1, hc.2.2.2.1, hc.2.2.2.2]

/-- The flag loop consumes exactly a maximal run of flag characters,
never touching the precision state. -/
theorem V1.parse_flags_run (fl : List Char) :
    ∀ (fa : format_args) (rest : List Char),
      (∀ c ∈ fl, is_flag_char c = true) →
      (∀ c, rest.head? = some c → is_flag_char c = false) →
      ∃ fa', V1.parse_flags fa (fl ++ rest) = (fa', rest)
        ∧ fa'.flag_have_precision = fa.flag_have_precision
        ∧ fa'.precision = fa.precision := by
  induction fl with
  | nil =>
      intro fa rest _ hrest
      exact ⟨fa, V1.parse_flags_stop fa rest hrest, rfl, rfl⟩
  | cons c fl ih =>
      intro fa rest hfl hrest
      have hc : is_flag_char c = true := hfl c (List.mem_cons_self c fl)
      have hfl' : ∀ x ∈ fl, is_flag_char x = true :=
        fun x hx => hfl x (List.mem_cons_of_mem c hx)
      simp only [is_flag_char, decide_eq_true_eq] at hc
      rcases hc with h | h | h | h | h
      · subst h
        obtain ⟨fa', heq, hp1, hp2⟩ := ih {fa with flag_zero_pad := true} rest hfl' hrest
        exact ⟨fa', by simpa [V1.parse_flags] using heq, hp1, hp2⟩
      · subst h
        obtain ⟨fa', heq, hp1, hp2⟩ := ih {fa with flag_alternate := true} rest hfl' hrest
        exact ⟨fa', by simpa [V1.parse_flags] using heq, hp1, hp2⟩
      · subst h
        obtain ⟨fa', heq, hp1, hp2⟩ := ih {fa with flag_width_negative := true} rest hfl' hrest
        exact ⟨fa', by simpa [V1.parse_flags] using heq, hp1, hp2⟩
      · subst h
        obtain ⟨fa', heq, hp1, hp2⟩ := ih {fa with flag_prepend_plus := true} rest hfl' hrest
        exact ⟨fa', by simpa [V1.parse_flags] using heq, hp1, hp2⟩
      · subst h
        obtain ⟨fa', heq, hp1, hp2⟩ := ih {fa with flag_prepend_space := true} rest hfl' hrest
        exact ⟨fa', by simpa [V1.parse_flags] using heq, hp1, hp2⟩

/-- The digit loop consumes exactly a maximal digit run. -/
theorem V1.parse_digits_run (d : List Char) :
    ∀ (acc : Int) (rest : List Char),
      (∀ c ∈ d, '0' ≤ c ∧ c ≤ '9') →
      (∀ c, rest.head? = some c → ¬('0' ≤ c ∧ c ≤ '9')) →
      ∃ v, V1.parse_digits acc (d ++ rest) = (v, rest) := by
  induction d with
  | nil =>
      intro acc rest _ hrest
      cases rest with
      | nil => exact ⟨acc, rfl⟩
      | cons c rs => exact ⟨acc, by simp [V1.parse_digits, hrest c rfl]⟩
  | cons c d ih =>
      intro acc rest hd hrest
      have hc := hd c (List.mem_cons_self c d)
      obtain ⟨v, hv⟩ := ih (10 * acc + (Int.ofNat c.toNat - Int.ofNat '0'.toNat)) rest
        (fun x hx => hd x (List.mem_cons_of_mem c hx)) hrest
      exact ⟨v, by simp only [List.cons_append, V1.parse_digits, if_pos hc]; exact hv⟩

/-- The digit-skipping loop of the negative-precision branch consumes
exactly a maximal digit run. -/
theorem V1.skip_digits_run (d : List Char) :
    ∀ (rest : List Char),
      (∀ c ∈ d, '0' ≤ c ∧ c ≤ '9') →
      (∀ c, rest.head? = some c → ¬('0' ≤ c ∧ c ≤ '9')) →
      V1.skip_digits (d ++ rest) = rest := by
  induction d with
  | nil =>
      intro rest _ hrest
      cases rest with
      | nil => rfl
      | cons c rs => simp [V1.skip_digits, hrest c rfl]
  | cons c d ih =>
      intro rest hd hrest
      have hc := hd c (List.mem_cons_self c d)
      simp only [List.cons_append, V1.skip_digits, if_pos hc]
      exact ih rest (fun x hx => hd x (List.mem_cons_of_mem c hx)) hrest

/-- The width section consumes an empty width, a `*` width, or a digit
width, leaving the rest intact; it never touches the precision state. -/
theorem V1.parse_width_run (w : List Char) (fa : format_args) (tail : List Char)
    (htail : tail.head? = some '.')
    (hw : w = [] ∨ w = ['*'] ∨
      (w ≠ [] ∧ (∀ c ∈ w, '0' ≤ c ∧ c ≤ '9') ∧ (∀ c, w.head? = some c → c ≠ '0'))) :
    ∃ fa' nw, V1.parse_width fa (w ++ tail) = (fa', nw, tail)
      ∧ fa'.flag_have_precision = fa.flag_have_precision
      ∧ fa'.precision = fa.precision := by
  rcases hw with rfl | rfl | ⟨hne, hdig, hhd⟩
  · cases tail with
    | nil => simp at htail
    | cons t ts =>
        have ht : t = '.' := by simpa using htail
        subst ht
        exact ⟨fa, false, by simp [V1.parse_width], rfl, rfl⟩
  · exact ⟨{fa with flag_have_width := true}, true, by simp [V1.parse_width], rfl, rfl⟩
  · obtain ⟨c, w', rfl⟩ : ∃ c w', w = c :: w' := by
      cases w with
      | nil => exact absurd rfl hne
      | cons c w' => exact ⟨c, w', rfl⟩
    have hc : '0' ≤ c ∧ c ≤ '9' := hdig c (List.mem_cons_self c w')
    have hcstar : c ≠ '*' := fun he => by
      rw [he] at hc
      exact absurd hc.1 (by decide)
    have htail' : ∀ x, tail.head? = some x → ¬('0' ≤ x ∧ x ≤ '9') := by
      intro x hx
      rw [htail] at hx
      cases hx
      decide
    obtain ⟨v, hv⟩ := V1.parse_digits_run (c :: w') 0 tail hdig htail'
    refine ⟨{fa with flag_have_width := true, width := v}, false, ?_, rfl, rfl⟩
    simp only [List.cons_append, V1.parse_width, hcstar, if_false, hc, and_self, if_true]
    rw [show (c :: w') ++ tail = c :: (w' ++ tail) from rfl] at hv
    simp [hv]

/-- The precision section on a `.-digits` run: the run is consumed and
the precision state is left untouched. -/
theorem V1.parse_precision_neg (fa : format_args) (d rest : List Char)
    (hd : ∀ c ∈ d, '0' ≤ c ∧ c ≤ '9')
    (hrest : ∀ c, rest.head? = some c → ¬('0' ≤ c ∧ c ≤ '9')) :
    V1.parse_precision fa ('.' :: '-' :: (d ++ rest)) = (fa, false, rest) := by
  have hs := V1.skip_digits_run d rest hd hrest
  simp [V1.parse_precision, hs]

/-- Taking the type character never touches the precision state. -/
theorem V1.parse_type_char_precision (fa : format_args) (sv : List Char) :
    (V1.parse_type_char fa sv).flag_have_precision = fa.flag_have_precision
    ∧ (V1.parse_type_char fa sv).precision = fa.precision := by
  cases sv <;> simp [V1.parse_type_char]

/--
C9: a specifier whose precision position holds `.` followed by `-`
(and optionally digits) is parsed with the negative precision consumed
but discarded: the resulting spec has the have-precision flag clear and
the precision field at its unset value `-1`, and no dynamic precision
is requested — never an error.  `fl` is any run of flag characters,
`w` an empty, `*`, or digit width (with a nonzero leading digit — a
leading `'0'` is taken as the zero-pad flag), `d` the digits of the
negative precision and `rest` the remainder of the specifier.
-/
theorem c9_negative_precision_ignored :
    ∀ (fl w d rest : List Char),
      (∀ c ∈ fl, is_flag_char c = true) →
      (w = [] ∨ w = ['*'] ∨
        (w ≠ [] ∧ (∀ c ∈ w, '0' ≤ c ∧ c ≤ '9') ∧ (∀ c, w.head? = some c → c ≠ '0'))) →
      (∀ c ∈ d, '0' ≤ c ∧ c ≤ '9') →
      (∀ c, rest.head? = some c → ¬('0' ≤ c ∧ c ≤ '9')) →
      (V1.parse_fmt_spec
          ('{' :: (fl ++ w ++ '.' :: '-' :: (d ++ rest)) ++ ['}'])).1.flag_have_precision = false
      ∧ (V1.parse_fmt_spec
          ('{' :: (fl ++ w ++ '.' :: '-' :: (d ++ rest)) ++ ['}'])).1.precision = -1
      ∧ (V1.parse_fmt_spec
          ('{' :: (fl ++ w ++ '.' :: '-' :: (d ++ rest)) ++ ['}'])).2.2 = false := by
  intro fl w d rest hfl hw hd hrest
  have hwhead : ∀ c, (w ++ '.' :: '-' :: (d ++ rest)).head? = some c → is_flag_char c = false := by
    intro c hc
    rcases hw with rfl | rfl | ⟨hne, hdig, hhd⟩
    · simp at hc
      subst hc
      decide
    · simp at hc
      subst hc
      decide
    · cases w with
      | nil => exact absurd rfl hne
      | cons c0 w' =>
          have hceq : c0 = c := by simpa using hc
          subst hceq
          have h1 : '0' ≤ c0 ∧ c0 ≤ '9' := hdig c0 (List.mem_cons_self c0 w')
          have h2 : c0 ≠ '0' := hhd c0 rfl
          simp only [is_flag_char, decide_eq_false_iff_not, not_or]
          refine ⟨h2, ?_, ?_, ?_, ?_⟩ <;>
            · intro he
              rw [he] at h1
              revert h1
              decide
  obtain ⟨fa1, h1, hp1a, hp1b⟩ :=
    V1.parse_flags_run fl {} (w ++ '.' :: '-' :: (d ++ rest)) hfl hwhead
  obtain ⟨fa2, nw, h2, hp2a, hp2b⟩ :=
    V1.parse_width_run w fa1 ('.' :: '-' :: (d ++ rest)) rfl hw
  have h3 := V1.parse_precision_neg fa2 d rest hd hrest
  have h4 := V1.parse_type_char_precision fa2 rest
  have hsv : (('{' :: (fl ++ w ++ '.' :: '-' :: (d ++ rest)) ++ ['}']).drop 1).dropLast =
      fl ++ (w ++ '.' :: '-' :: (d ++ rest)) := by
    have hdl : ∀ (l : List Char) (a : Char), (l ++ [a]).dropLast = l := fun l a => by simp
    rw [show ('{' :: (fl ++ w ++ '.' :: '-' :: (d ++ rest)) ++ ['}']).drop 1 =
        (fl ++ w ++ '.' :: '-' :: (d ++ rest)) ++ ['}'] from rfl]
    rw [hdl, List.append_assoc]
  simp only [V1.parse_fmt_spec, hsv, h1, h2, h3]
  refine ⟨?_, ?_, trivial⟩
  · rw [h4.1, hp2a, hp1a]
  · rw [h4.2, hp2b, hp1b]

/-- C9 witness: the statement applied to the specifier `{0#42.-7d}`. -/
theorem c9_negative_precision_ignored_witness :
    (V1.parse_fmt_spec
        ('{' :: (['0', '#'] ++ ['4', '2'] ++ '.' :: '-' :: (['7'] ++ ['d'])) ++ ['}'])).1.flag_have_precision = false
    ∧ (V1.parse_fmt_spec
        ('{' :: (['0', '#'] ++ ['4', '2'] ++ '.' :: '-' :: (['7'] ++ ['d'])) ++ ['}'])).1.precision = -1 := by
  have h := c9_negative_precision_ignored ['0', '#'] ['4', '2'] ['7'] ['d']
    (by decide) (by right; right; refine ⟨by decide, by decide, by decide⟩) (by decide) (by decide)
  exact ⟨h.1, h.2.1⟩

/-- `Rat.floor` agrees with the mathematical floor. -/
theorem rat_floor_eq (q : ℚ) : Rat.floor q = ⌊q⌋ :=
  (Rat.floor_def' q).trans Rat.floor_def.symm

/-- At an exact tie with `prec ≥ 1`, the rounding kernel takes the
tie branch: the fraction is incremented exactly when it is zero or odd,
and the integer part is untouched. -/
theorem V1.round_floating_tie (v : ℚ) (p : Nat) (hp : 1 ≤ p)
    (htie : (v - ((Rat.floor v : Int) : ℚ)) * V1.pow10 p
      - ((Rat.floor ((v - ((Rat.floor v : Int) : ℚ)) * V1.pow10 p) : Int) : ℚ) = 1/2) :
    V1.round_floating v p =
      (if (Rat.floor ((v - ((Rat.floor v : Int) : ℚ)) * V1.pow10 p)).toNat = 0 ∨
          (Rat.floor ((v - ((Rat.floor v : Int) : ℚ)) * V1.pow10 p)).toNat % 2 = 1 then
        (Rat.floor ((v - ((Rat.floor v : Int) : ℚ)) * V1.pow10 p)).toNat + 1
      else (Rat.floor ((v - ((Rat.floor v : Int) : ℚ)) * V1.pow10 p)).toNat,
      Rat.floor v) := by
  have hr0 : 0 ≤ v - ((Rat.floor v : Int) : ℚ) := by
    rw [rat_floor_eq]
    exact sub_nonneg.mpr (Int.floor_le v)
  have ht0 : 0 ≤ (v - ((Rat.floor v : Int) : ℚ)) * V1.pow10 p := by
    apply mul_nonneg hr0
    unfold V1.pow10
    positivity
  have hf0 : 0 ≤ Rat.floor ((v - ((Rat.floor v : Int) : ℚ)) * V1.pow10 p) := by
    rw [rat_floor_eq]
    exact Int.floor_nonneg.mpr ht0
  have htoNat : (((Rat.floor ((v - ((Rat.floor v : Int) : ℚ)) * V1.pow10 p)).toNat : ℚ))
      = ((Rat.floor ((v - ((Rat.floor v : Int) : ℚ)) * V1.pow10 p) : Int) : ℚ) := by
    rw [show ((Rat.floor ((v - ((Rat.floor v : Int) : ℚ)) * V1.pow10 p)).toNat : ℚ)
        = (((Rat.floor ((v - ((Rat.floor v : Int) : ℚ)) * V1.pow10 p)).toNat : Int) : ℚ) by
      push_cast; ring]
    rw [Int.toNat_of_nonneg hf0]
  have hdiff : (v - ((Rat.floor v : Int) : ℚ)) * V1.pow10 p
      - (((Rat.floor ((v - ((Rat.floor v : Int) : ℚ)) * V1.pow10 p)).toNat : ℚ)) = 1/2 := by
    rw [htoNat]
    exact htie
  simp only [V1.round_floating]
  rw [if_neg (show ¬(p = 0) by omega)]
  rw [hdiff]
  rw [if_neg (by norm_num), if_neg (by norm_num)]
  split <;> rfl

/-- At an exact tie with `prec = 0` (fractional part exactly one half),
the kernel's separate integer-part adjustment rounds the integer part
up exactly when it is odd. -/
theorem V1.round_floating_tie0 (v : ℚ)
    (hhalf : v - ((Rat.floor v : Int) : ℚ) = 1/2) :
    V1.round_floating v 0 =
      (1, if Rat.floor v % 2 = 1 then Rat.floor v + 1 else Rat.floor v) := by
  have hfl : Rat.floor ((1 : ℚ)/2) = 0 := by
    rw [rat_floor_eq]
    norm_num
  simp only [V1.round_floating]
  rw [show V1.pow10 0 = (1 : ℚ) from rfl, mul_one, hhalf, hfl]
  norm_num
  rw [hhalf]
  norm_num
  by_cases hodd : Rat.floor v % 2 = 1 <;> simp [hodd]

/-- For a dyadic value and `prec ≥ 1`, an exact tie cannot land on a
zero fraction: that would force `2^k = a · 2 · 10^p`, making `5`
divide a power of two. -/
theorem V1.tie_frac_ne_zero (v : ℚ) (p : Nat) (hp : 1 ≤ p) (m : Int) (k : Nat)
    (hv : v = (m : ℚ) / 2 ^ k)
    (htie : (v - ((Rat.floor v : Int) : ℚ)) * V1.pow10 p
      - ((Rat.floor ((v - ((Rat.floor v : Int) : ℚ)) * V1.pow10 p) : Int) : ℚ) = 1/2) :
    Rat.floor ((v - ((Rat.floor v : Int) : ℚ)) * V1.pow10 p) ≠ 0 := by
  subst hv
  intro h0
  rw [h0] at htie
  have ht12 : ((m : ℚ) / 2 ^ k - ((Rat.floor ((m : ℚ) / 2 ^ k) : Int) : ℚ)) * (10 : ℚ) ^ p
      = 1/2 := by
    simpa [V1.pow10] using htie
  have key : ((m - Rat.floor ((m : ℚ) / 2 ^ k) * 2 ^ k : Int) : ℚ) * 10 ^ p * 2 = 2 ^ k := by
    have h2k : ((2 : ℚ)) ^ k ≠ 0 := by positivity
    push_cast
    field_simp at ht12 ⊢
    linear_combination ht12
  have keyZ : (m - Rat.floor ((m : ℚ) / 2 ^ k) * 2 ^ k) * 10 ^ p * 2 = 2 ^ k := by
    exact_mod_cast key
  have h5 : (5 : Int) ∣ 2 ^ k := by
    rw [← keyZ]
    have h10 : (10 : Int) ^ p = 10 * 10 ^ (p - 1) := by
      rw [← pow_succ']
      congr 1
      omega
    rw [h10]
    exact ⟨(m - Rat.floor ((m : ℚ) / 2 ^ k) * 2 ^ k) * (2 * 10 ^ (p - 1)) * 2, by ring⟩
  have hprime : Prime (5 : Int) := by norm_num
  have h52 : (5 : Int) ∣ 2 := hprime.dvd_of_dvd_pow h5
  norm_num at h52

/--
C2: the fixed-point fraction of `print_floating` (src/zpr.h lines
1029-1065, byte-identical in src/unnamed/part_001) is obtained by
multiplying the fractional remainder by `10^precision` and rounding to
nearest with ties to even.  For every dyadic value (the exact value of
any finite double) and `1 ≤ precision ≤ 16`, when the scaled remainder
sits exactly halfway between two integers the chosen fraction is even
and at distance exactly one half (for a dyadic value the tie can never
land on a zero fraction, where the code would instead round up); for
`precision = 0` the integer part itself is rounded to even at an exact
`.5` remainder.  In particular the spec `{.0}` parses to precision 0,
and formatting `2.5` with it yields `"2"` while `3.5` yields `"4"`.
-/
theorem c2_round_half_to_even :
    (∀ (v : ℚ) (p : Nat), dyadic v → 1 ≤ p → p ≤ 16 →
      (v - ((Rat.floor v : Int) : ℚ)) * V1.pow10 p
        - ((Rat.floor ((v - ((Rat.floor v : Int) : ℚ)) * V1.pow10 p) : Int) : ℚ) = 1/2 →
      (V1.round_floating v p).1 % 2 = 0
      ∧ |((V1.round_floating v p).1 : ℚ)
          - (v - ((Rat.floor v : Int) : ℚ)) * V1.pow10 p| = 1/2)
    ∧ (∀ v : ℚ, v - ((Rat.floor v : Int) : ℚ) = 1/2 →
      (V1.round_floating v 0).2 % 2 = 0
      ∧ |((V1.round_floating v 0).2 : ℚ) - v| = 1/2)
    ∧ (V1.parse_fmt_spec ['{', '.', '0', '}']).1 =
        {flag_have_precision := true, precision := 0}
    ∧ V1.print_floating (5/2) {flag_have_precision := true, precision := 0} =
        some [Chunk.str ['2']]
    ∧ V1.print_floating (7/2) {flag_have_precision := true, precision := 0} =
        some [Chunk.str ['4']] := by
  refine ⟨?_, ?_, by decide, by decide, by decide⟩
  · intro v p hdy hp1 hp16 htie
    obtain ⟨m, k, hv⟩ := hdy
    have hne := V1.tie_frac_ne_zero v p hp1 m k hv htie
    have hf0 : 0 ≤ Rat.floor ((v - ((Rat.floor v : Int) : ℚ)) * V1.pow10 p) := by
      rw [rat_floor_eq]
      refine Int.floor_nonneg.mpr (mul_nonneg ?_ ?_)
      · rw [rat_floor_eq]
        exact sub_nonneg.mpr (Int.floor_le v)
      · unfold V1.pow10
        positivity
    have hnatne : (Rat.floor ((v - ((Rat.floor v : Int) : ℚ)) * V1.pow10 p)).toNat ≠ 0 := by
      omega
    have heval := V1.round_floating_tie v p hp1 htie
    have htoNat : (((Rat.floor ((v - ((Rat.floor v : Int) : ℚ)) * V1.pow10 p)).toNat : ℚ))
        = ((Rat.floor ((v - ((Rat.floor v : Int) : ℚ)) * V1.pow10 p) : Int) : ℚ) := by
      rw [show ((Rat.floor ((v - ((Rat.floor v : Int) : ℚ)) * V1.pow10 p)).toNat : ℚ)
          = (((Rat.floor ((v - ((Rat.floor v : Int) : ℚ)) * V1.pow10 p)).toNat : Int) : ℚ) by
        push_cast; ring]
      rw [Int.toNat_of_nonneg hf0]
    have hdiff : (v - ((Rat.floor v : Int) : ℚ)) * V1.pow10 p
        - (((Rat.floor ((v - ((Rat.floor v : Int) : ℚ)) * V1.pow10 p)).toNat : ℚ)) = 1/2 := by
      rw [htoNat]
      exact htie
    by_cases hodd : (Rat.floor ((v - ((Rat.floor v : Int) : ℚ)) * V1.pow10 p)).toNat % 2 = 1
    · rw [heval, if_pos (Or.inr hodd)]
      constructor
      · simp only
        omega
      · simp only
        rw [show ((((Rat.floor ((v - ((Rat.floor v : Int) : ℚ)) * V1.pow10 p)).toNat + 1 : Nat)) : ℚ)
            = (((Rat.floor ((v - ((Rat.floor v : Int) : ℚ)) * V1.pow10 p)).toNat : ℚ)) + 1 by
          push_cast; ring]
        rw [abs_eq (by norm_num : (0:ℚ) ≤ 1/2)]
        left
        linarith [hdiff]
    · rw [heval, if_neg (by
        intro hc
        rcases hc with hc | hc
        · exact hnatne hc
        · exact hodd hc)]
      constructor
      · simp only
        omega
      · simp only
        rw [abs_eq (by norm_num : (0:ℚ) ≤ 1/2)]
        right
        linarith [hdiff]
  · intro v hhalf
    have heval := V1.round_floating_tie0 v hhalf
    by_cases hodd : Rat.floor v % 2 = 1
    · rw [heval, if_pos hodd]
      constructor
      · simp only
        omega
      · simp only
        rw [abs_eq (by norm_num : (0:ℚ) ≤ 1/2)]
        left
        push_cast
        linarith [hhalf]
    · rw [heval, if_neg hodd]
      constructor
      · simp only
        have := Int.emod_two_eq_zero_or_one (Rat.floor v)
        omega
      · simp only
        rw [abs_eq (by norm_num : (0:ℚ) ≤ 1/2)]
        right
        linarith [hhalf]

/-- C2 witness: the tie statements applied at the dyadic `1/4` with
precision 1 (scaled remainder exactly `2.5`, rounded to the even 2) and
at `5/2` with precision 0 (integer part 2 kept even). -/
theorem c2_round_half_to_even_witness :
    (V1.round_floating (1/4) 1).1 % 2 = 0
    ∧ (V1.round_floating (5/2) 0).2 % 2 = 0 := by
  refine ⟨(c2_round_half_to_even.1 (1/4) 1 ⟨1, 2, by norm_num⟩ (by decide) (by decide)
    (by decide)).1, (c2_round_half_to_even.2.1 (5/2) (by decide)).1⟩

end Zpr

